import Mathlib

/-!
Shallow embedding of `src/esp32_mac_collector.py` (class `ESP32Manager`)
and proofs about it.

Strings from the Python side are modelled as Lean `String`s; the character
manipulations work on `String.data : List Char`.  Python integers are `Nat`
or `Int` (Python ints are unbounded, so no wrap-around modelling is needed).
Fallible Python code (statements that can raise) is modelled with `Option`
or `Except`.
-/

set_option autoImplicit false

namespace EspMac

/-! ### Hex rendering and parsing primitives used by `increment_mac`. -/

/-- The uppercase hex digit character for a nibble `n < 16`
(mirrors what Python's `format(_, 'X')` emits digit-wise). -/
def hexDigitU (n : Nat) : Char :=
  if n < 10 then Char.ofNat (48 + n) else Char.ofNat (55 + n)

/-- Division-by-16 recursion with an explicit fuel argument so that the
recursion is structural (the fuel is a modelling artifact; any fuel large
enough for all the digits gives the same result, see `toHexUAux_congr`). -/
def toHexUAux : Nat → Nat → List Char
  | 0, _ => []
  | fuel + 1, n =>
    if n < 16 then [hexDigitU n]
    else toHexUAux fuel (n / 16) ++ [hexDigitU (n % 16)]

/-- Uppercase hex rendering of a `Nat` without padding, most significant digit
first; `toHexU 0 = ['0']`.  This is the digit string produced by Python's
`format(n, 'X')` for `n ≥ 0` (a number `n` has at most `n + 1` hex digits,
so the fuel `n + 1` is always sufficient). -/
def toHexU (n : Nat) : List Char := toHexUAux (n + 1) n

/-- Zero-pad a digit string on the left to a minimum width `k`
(Python's `0`-fill in a format spec never truncates). -/
def padZeros (k : Nat) (l : List Char) : List Char :=
  List.replicate (k - l.length) '0' ++ l

/-- Python's `format(n, '012X')`: uppercase hex, zero-padded to a minimum
width of 12.  For a negative `n` the sign is emitted first and the zero
padding goes between the sign and the digits (sign-aware zero fill), still
to a total minimum width of 12. -/
def pyFormat012X (n : Int) : List Char :=
  if 0 ≤ n then padZeros 12 (toHexU n.toNat)
  else '-' :: padZeros 11 (toHexU (-n).toNat)

/-- Python's `':'.join([mac_hex[i:i+2] for i in range(0, 12, 2)])`:
six two-character slices at fixed offsets 0,2,...,10, joined with `':'`.
Slices past the end of the string are shorter or empty, as in Python. -/
def joinPairs (s : List Char) : List Char :=
  ((s.drop 0).take 2) ++ ':' :: ((s.drop 2).take 2) ++ ':' :: ((s.drop 4).take 2)
    ++ ':' :: ((s.drop 6).take 2) ++ ':' :: ((s.drop 8).take 2)
    ++ ':' :: ((s.drop 10).take 2)

/-- Value of one hex digit character, upper or lower case;
`none` on any other character. -/
def hexVal (c : Char) : Option Nat :=
  if '0' ≤ c ∧ c ≤ '9' then some (c.toNat - 48)
  else if 'a' ≤ c ∧ c ≤ 'f' then some (c.toNat - 87)
  else if 'A' ≤ c ∧ c ≤ 'F' then some (c.toNat - 55)
  else none

/-- Accumulator pass of base-16 parsing; fails on the first non-hex char. -/
def parseHexAux : Nat → List Char → Option Nat
  | acc, [] => some acc
  | acc, c :: cs =>
    match hexVal c with
    | some d => parseHexAux (acc * 16 + d) cs
    | none => none

/-- Python's `int(s, 16)` restricted to plain digit strings: `none` models
the `ValueError` raised on the empty string or on a non-hex character.
(The `0x` prefix, a sign, underscores and surrounding whitespace that
Python's `int` would also accept never occur on the strings this program
feeds to it, and are not modelled.) -/
def parseHexNat (l : List Char) : Option Nat :=
  match l with
  | [] => none
  | _ :: _ => parseHexAux 0 l

/-- Embedding of `ESP32Manager.increment_mac` (lines 84–94).
`mac_str.replace(':', '')` removes every `':'` (single-character pattern,
empty replacement), `int(_, 16)` parses hex (a `ValueError` is `none`),
the sum is formatted with `format(_, '012X')` and re-grouped by fixed
two-character slices.  Note there is no reduction modulo 2^48 anywhere. -/
def increment_mac (mac_str : String) (increment : Int) : Option String :=
  match parseHexNat (mac_str.data.filter (fun c => c != ':')) with
  | none => none
  | some mac_int =>
    let new_mac_int : Int := (mac_int : Int) + increment
    let mac_hex := pyFormat012X new_mac_int
    some ⟨joinPairs mac_hex⟩

/-! ### Canonical MAC rendering used to state properties. -/

/-- Byte `i` (little-endian index; byte 5 is the most significant) of a
48-bit value. -/
def byteAt (v : Nat) (i : Nat) : Nat := v / 256 ^ i % 256

/-- Two uppercase hex digits of a byte. -/
def hexByte (b : Nat) : List Char :=
  [hexDigitU (b / 16 % 16), hexDigitU (b % 16)]

/-- The canonical 6-byte rendering of a 48-bit value: big-endian bytes as
uppercase hex pairs joined by `':'`. -/
def goodMacL (v : Nat) : List Char :=
  hexByte (byteAt v 5) ++ ':' :: hexByte (byteAt v 4) ++ ':' :: hexByte (byteAt v 3)
    ++ ':' :: hexByte (byteAt v 2) ++ ':' :: hexByte (byteAt v 1)
    ++ ':' :: hexByte (byteAt v 0)

/-- `goodMacL` as a `String`. -/
def goodMac (v : Nat) : String := ⟨goodMacL v⟩

/-- Exactly-12-digit base-16 digit list of `n` (most significant first),
keeping only the low 12 digits. -/
def digitsK : Nat → Nat → List Char
  | 0, _ => []
  | k + 1, n => digitsK k (n / 16) ++ [hexDigitU (n % 16)]

/-- Is `c` an uppercase hex digit character? -/
def isHexU (c : Char) : Bool :=
  ('0' ≤ c && c ≤ '9') || ('A' ≤ c && c ≤ 'F')

/-- Canonical 6-byte address format: six groups of exactly two uppercase
hex digits joined by `':'` (17 characters in all). -/
def isCanonicalMac (s : String) : Bool :=
  match s.data with
  | [a, b, s1, c, d, s2, e, f, s3, g, h, s4, i, j, s5, k, l] =>
    isHexU a && isHexU b && (s1 == ':') && isHexU c && isHexU d && (s2 == ':')
      && isHexU e && isHexU f && (s3 == ':') && isHexU g && isHexU h && (s4 == ':')
      && isHexU i && isHexU j && (s5 == ':') && isHexU k && isHexU l
  | _ => false

/-- Modelled from the spec: `deriveAddress` as the spec words it —
"interprets the 6 bytes as a 48-bit big-endian unsigned integer, adds
`offset`, reduces modulo 2^48, re-renders as 6 colon-separated uppercase
hex byte pairs".  This is the spec-side definition used to compare the
claimed modular-wraparound behaviour against `increment_mac`. -/
def deriveAddressSpecModel (mac_str : String) (offset : Int) : Option String :=
  match parseHexNat (mac_str.data.filter (fun c => c != ':')) with
  | none => none
  | some v => some (goodMac (((v : Int) + offset) % (2 ^ 48 : Int)).toNat)

/-! ### Embedding of `parse_mac_from_boot_message` (lines 66–82).

The two regular expressions used by the Python code are

  pattern 1: `[Mm][Aa][Cc][:\s]+([0-9A-Fa-f]{2}[:-]){5}([0-9A-Fa-f]{2})`
  pattern 2: `([0-9A-Fa-f]{2}[:-]){5}([0-9A-Fa-f]{2})`

Both are embedded as deterministic matchers.  This is exact: every element
of the patterns except `[:\s]+` has fixed width, and `[:\s]+` is followed by
a hex digit while no character of the class `[:\s]` is a hex digit, so the
greedy maximal munch of `[:\s]+` never needs backtracking.  A match of
pattern 2 is always exactly 17 characters long.  `re.search` scans the
start positions left to right and returns the first position at which the
pattern matches; `group(0)` is the whole matched substring.
`\s` and `str.strip` are modelled on ASCII whitespace (the Unicode cases
never occur in the lines this program reads). -/

/-- ASCII whitespace, as matched by `\s` and stripped by `str.strip`. -/
def isSpaceChar (c : Char) : Bool :=
  c == ' ' || c == '\t' || c == '\n' || c == '\r' || c.toNat == 11 || c.toNat == 12

/-- A hex digit of either case, the class `[0-9A-Fa-f]`. -/
def isHexChar (c : Char) : Bool :=
  ('0' ≤ c && c ≤ '9') || ('a' ≤ c && c ≤ 'f') || ('A' ≤ c && c ≤ 'F')

/-- Does `s` begin with `pat`? -/
def beginsWith : List Char → List Char → Bool
  | _, [] => true
  | [], _ :: _ => false
  | c :: cs, p :: ps => c == p && beginsWith cs ps

/-- Python's `str.replace(pat, rep)` for a non-empty `pat`: scan left to
right, replacing non-overlapping occurrences.  The fuel argument (at least
the length of the string) makes the recursion structural. -/
def pyReplaceAux (pat rep : List Char) : Nat → List Char → List Char
  | 0, s => s
  | fuel + 1, s =>
    if beginsWith s pat then rep ++ pyReplaceAux pat rep fuel (s.drop pat.length)
    else
      match s with
      | [] => []
      | c :: cs => c :: pyReplaceAux pat rep fuel cs

/-- Python's `str.replace(pat, rep)` (our patterns are never empty). -/
def pyReplace (s pat rep : List Char) : List Char :=
  if pat.isEmpty then s else pyReplaceAux pat rep s.length s

/-- Python's `str.strip()`: drop whitespace from both ends. -/
def pyStrip (l : List Char) : List Char :=
  ((l.dropWhile isSpaceChar).reverse.dropWhile isSpaceChar).reverse

/-- Python's `str.strip()` on a `String`. -/
def pyStripS (s : String) : String := ⟨pyStrip s.data⟩

/-- Python's `str.upper()` on one ASCII character. -/
def pyUpperChar (c : Char) : Char :=
  if 'a' ≤ c && c ≤ 'z' then Char.ofNat (c.toNat - 32) else c

/-- Consume one `[0-9A-Fa-f]{2}[:-]` group at the front, returning the rest. -/
def hexPairSepAt : List Char → Option (List Char)
  | a :: b :: c :: rest =>
    if isHexChar a && isHexChar b && (c == ':' || c == '-') then some rest else none
  | _ => none

/-- Does pattern 2 (`([0-9A-Fa-f]{2}[:-]){5}([0-9A-Fa-f]{2})`) match at the
start of `s`?  Such a match is always exactly 17 characters. -/
def p2At (s : List Char) : Bool :=
  match ((((hexPairSepAt s).bind hexPairSepAt).bind hexPairSepAt).bind
      hexPairSepAt).bind hexPairSepAt with
  | some (a :: b :: _) => isHexChar a && isHexChar b
  | _ => false

/-- Length of the match of pattern 1 at the start of `s`, if any:
`[Mm][Aa][Cc]`, then a maximal non-empty run of `[:\s]`, then pattern 2. -/
def p1At (s : List Char) : Option Nat :=
  match s with
  | m :: a :: c :: rest =>
    if (m == 'M' || m == 'm') && (a == 'A' || a == 'a') && (c == 'C' || c == 'c') then
      let k := (rest.takeWhile (fun ch => ch == ':' || isSpaceChar ch)).length
      if 0 < k && p2At (rest.drop k) then some (3 + k + 17) else none
    else none
  | _ => none

/-- `re.search`: try the matcher at each start position, left to right, and
return the matched substring (`group(0)`) of the first success. -/
def searchLen (f : List Char → Option Nat) : List Char → Option (List Char)
  | [] =>
    match f [] with
    | some _ => some []
    | none => none
  | c :: cs =>
    match f (c :: cs) with
    | some n => some ((c :: cs).take n)
    | none => searchLen f cs

/-- The normalisation applied to `match.group(0)` (lines 77–80): remove the
`'MAC:'`, `'Mac:'`, `'mac:'` substrings, strip whitespace, turn `'-'` into
`':'` and uppercase. -/
def normalizeMac (m : List Char) : List Char :=
  let m1 := pyReplace (pyReplace (pyReplace m "MAC:".data [] ) "Mac:".data []) "mac:".data []
  let m2 := pyStrip m1
  (m2.map (fun c => if c == '-' then ':' else c)).map pyUpperChar

/-- Embedding of `ESP32Manager.parse_mac_from_boot_message` (lines 66–82):
try pattern 1 anywhere in the line, then pattern 2; normalise the first
match; `none` when neither pattern occurs. -/
def parse_mac_from_boot_message (line : String) : Option String :=
  match searchLen p1At line.data with
  | some m => some ⟨normalizeMac m⟩
  | none =>
    match searchLen (fun t => if p2At t then some 17 else none) line.data with
    | some m => some ⟨normalizeMac m⟩
    | none => none

/-! ### Database state, persistence and the capture path. -/

/-- One entry of `mac_database` (the dict built at lines 130–136). -/
structure DeviceInfo where
  id : Nat
  wifi_mac : String
  bt_mac : String
  timestamp : String
  port : String
deriving DecidableEq

/-- The mutable state of `ESP32Manager`: `self.mac_database` and
`self.device_counter`. -/
structure MState where
  mac_database : List DeviceInfo
  device_counter : Nat
deriving DecidableEq

/-- What `load_database` finds at `self.db_file`.  `absent`: the path does
not exist.  `malformed`: the file exists but `json.load` raises
`json.JSONDecodeError`.  `nonObject`: `json.load` succeeds but the value is
not a dict, so `data.get` raises `AttributeError`.  `object`: a JSON object
whose `devices` / `next_id` / `last_updated` keys may each be present or
missing. -/
inductive DBFile where
  | absent
  | malformed
  | nonObject
  | object (devices : Option (List DeviceInfo)) (next_id : Option Nat)
      (last_updated : Option String)
deriving DecidableEq

/-- The exception that escapes `load_database` on bad persisted state. -/
inductive LoadError where
  | decodeFailure
  | notAnObject
deriving DecidableEq

/-- Embedding of `ESP32Manager.load_database` (lines 28–35), including the
`__init__` defaults (lines 21–22): when the file is absent the state keeps
`mac_database = []`, `device_counter = 1`; when it is present,
`json.load` may raise (`Except.error`), and on a JSON object the state is
read with `data.get('devices', [])` and `data.get('next_id', 1)`. -/
def load_database : DBFile → Except LoadError MState
  | .absent => .ok ⟨[], 1⟩
  | .malformed => .error .decodeFailure
  | .nonObject => .error .notAnObject
  | .object devices next_id _ => .ok ⟨devices.getD [], next_id.getD 1⟩

/-- Embedding of `ESP32Manager.save_database` (lines 37–46): writes a JSON
object with the `devices`, `next_id` and `last_updated` keys; `now` stands
for `datetime.now().isoformat()`. -/
def save_database (st : MState) (now : String) : DBFile :=
  .object (some st.mac_database) (some st.device_counter) (some now)

/-- Equality of persisted files up to the `last_updated` field. -/
def sameDevicesAndNextId : DBFile → DBFile → Prop
  | .object d1 n1 _, .object d2 n2 _ => d1 = d2 ∧ n1 = n2
  | f, g => f = g

/-- The append performed on a successful capture (lines 130–138): build the
record with `id = self.device_counter`, append it to `self.mac_database`
and increment `self.device_counter`. -/
def appendDevice (st : MState) (wifi bt port now : String) : DeviceInfo × MState :=
  let d : DeviceInfo := ⟨st.device_counter, wifi, bt, now, port⟩
  (d, ⟨st.mac_database ++ [d], st.device_counter + 1⟩)

/-- The read loop of `collect_mac_from_reset` (lines 114–148) over the list
of lines the serial port delivers before the timeout expires.  Each raw
line is decoded and stripped (line 117), empty lines are skipped
(line 118), and the first line whose `parse_mac_from_boot_message` result
is truthy triggers the append, the save and the return (lines 122–142).
The loop falling off the list is the timeout return of `None` (lines
146–148).  The outer `Option` is `none` exactly when `increment_mac`
raises `ValueError` (an exception no handler in the program catches);
the `Option DBFile` component records the file written by `save_database`,
if any. -/
def processLines (st : MState) (port now : String) :
    List String → Option (Option DeviceInfo × MState × Option DBFile)
  | [] => some (none, st, none)
  | raw :: rest =>
    let line := pyStripS raw
    if line.isEmpty then processLines st port now rest
    else
      match parse_mac_from_boot_message line with
      | none => processLines st port now rest
      | some mac =>
        if mac.isEmpty then processLines st port now rest
        else
          match increment_mac mac 2 with
          | none => none
          | some bt =>
            let (d, st2) := appendDevice st mac bt port now
            some (some d, st2, some (save_database st2 now))

/-- Embedding of `ESP32Manager.collect_mac_from_reset` (lines 96–152).
`session = none` models `serial.Serial` raising `serial.SerialException`
(line 150): the handler prints and returns `None` with the state untouched
and nothing written.  `session = some lines` models a successful open
delivering `lines` before the timeout. -/
def collect_mac_from_reset (st : MState) (port now : String)
    (session : Option (List String)) :
    Option (Option DeviceInfo × MState × Option DBFile) :=
  match session with
  | none => some (none, st, none)
  | some lines => processLines st port now lines

/-- One step of the provisioning history used for the identifier claims:
either a successful capture appends a record (lines 130–139, followed by
`save_database`), or the process restarts (`__init__` runs `load_database`
on the current file). -/
inductive Event where
  | append (wifi bt port now : String)
  | restart

/-- Run a history of appends and restarts from a state and a persisted
file, collecting the identifiers assigned in order.  A restart re-loads
the state from the persisted file exactly as `__init__` does; `none`
models an exception escaping `load_database`. -/
def runEvents : MState → DBFile → List Event →
    Option (MState × DBFile × List Nat)
  | st, disk, [] => some (st, disk, [])
  | st, _disk, .append w b p t :: evs =>
    let (d, st2) := appendDevice st w b p t
    (runEvents st2 (save_database st2 t) evs).map
      (fun r => (r.1, r.2.1, d.id :: r.2.2))
  | _st, disk, .restart :: evs =>
    match load_database disk with
    | .ok st2 => runEvents st2 disk evs
    | .error _ => none

/-- Number of `append` events in a history. -/
def appendCount : List Event → Nat
  | [] => 0
  | .append _ _ _ _ :: evs => appendCount evs + 1
  | .restart :: evs => appendCount evs

/-- `[s, s+1, ..., s+k-1]`: the contiguous run of `k` identifiers from `s`. -/
def idsFrom (s : Nat) : Nat → List Nat
  | 0 => []
  | k + 1 => s :: idsFrom (s + 1) k

/-! ### Lemmas about the hex codec. -/

lemma hexVal_hexDigitU : ∀ d : Nat, d < 16 → hexVal (hexDigitU d) = some d := by decide

lemma hexDigitU_isHexU : ∀ d : Nat, d < 16 → isHexU (hexDigitU d) = true := by decide

lemma hexDigitU_ne_colon : ∀ d : Nat, d < 16 → (hexDigitU d != ':') = true := by decide

lemma digitsK_length (k : Nat) : ∀ n, (digitsK k n).length = k := by
  induction k with
  | zero => intro n; rfl
  | succ k ih => intro n; simp [digitsK, ih]

lemma digitsK_zero_val (k : Nat) : digitsK k 0 = List.replicate k '0' := by
  induction k with
  | zero => rfl
  | succ k ih =>
    have h0 : hexDigitU 0 = '0' := by decide
    simp [digitsK, Nat.zero_div, ih, h0, List.replicate_succ']

lemma toHexUAux_congr : ∀ f g n, n < 16 ^ f → n < 16 ^ g → 0 < f → 0 < g →
    toHexUAux f n = toHexUAux g n := by
  intro f
  induction f with
  | zero => omega
  | succ f ih =>
    intro g n hf hg _ hg0
    obtain ⟨g', rfl⟩ : ∃ g', g = g' + 1 := ⟨g - 1, by omega⟩
    by_cases hn : n < 16
    · simp [toHexUAux, hn]
    · have hf1 : 0 < f := by
        by_contra h
        have : f = 0 := by omega
        subst this
        simp [pow_succ, pow_zero] at hf
        omega
      have hg1 : 0 < g' := by
        by_contra h
        have : g' = 0 := by omega
        subst this
        simp [pow_succ, pow_zero] at hg
        omega
      have hdf : n / 16 < 16 ^ f := by
        rw [Nat.div_lt_iff_lt_mul (by norm_num)]
        calc n < 16 ^ (f + 1) := hf
        _ = 16 ^ f * 16 := by rw [pow_succ]
      have hdg : n / 16 < 16 ^ g' := by
        rw [Nat.div_lt_iff_lt_mul (by norm_num)]
        calc n < 16 ^ (g' + 1) := hg
        _ = 16 ^ g' * 16 := by rw [pow_succ]
      simp only [toHexUAux, if_neg hn]
      rw [ih g' (n / 16) hdf hdg hf1 hg1]

lemma toHexU_eq_aux (k n : Nat) (hk : 0 < k) (hn : n < 16 ^ k) :
    toHexU n = toHexUAux k n := by
  have h1 : n < 16 ^ (n + 1) := by
    have h2 : n < 2 ^ (n + 1) :=
      lt_of_lt_of_le (Nat.lt_two_pow n) (Nat.pow_le_pow_right (by norm_num) (by omega))
    exact lt_of_lt_of_le h2 (Nat.pow_le_pow_left (by norm_num) _)
  exact toHexUAux_congr (n + 1) k n h1 hn (by omega) hk

lemma padZeros_toHexUAux : ∀ k n, 0 < k → n < 16 ^ k →
    padZeros k (toHexUAux k n) = digitsK k n := by
  intro k
  induction k with
  | zero => omega
  | succ k ih =>
    intro n _ hn
    by_cases h16 : n < 16
    · have hd0 : n / 16 = 0 := Nat.div_eq_of_lt h16
      have hm : n % 16 = n := Nat.mod_eq_of_lt h16
      simp [toHexUAux, h16, padZeros, digitsK, hd0, hm, digitsK_zero_val]
    · have hk1 : 0 < k := by
        by_contra h
        have : k = 0 := by omega
        subst this
        simp [pow_succ, pow_zero] at hn
        omega
      have hdf : n / 16 < 16 ^ k := by
        rw [Nat.div_lt_iff_lt_mul (by norm_num)]
        calc n < 16 ^ (k + 1) := hn
        _ = 16 ^ k * 16 := by rw [pow_succ]
      have ihk := ih (n / 16) hk1 hdf
      have hlen : (toHexUAux k (n / 16)).length ≤ k := by
        have := congrArg List.length ihk
        simp [padZeros, digitsK_length] at this
        omega
      simp only [toHexUAux, if_neg h16, digitsK]
      rw [← ihk]
      simp only [padZeros, List.length_append, List.length_singleton]
      have harith : k + 1 - ((toHexUAux k (n / 16)).length + 1)
          = k - (toHexUAux k (n / 16)).length := by omega
      rw [harith, ← List.append_assoc]

lemma padZeros_toHexU (k n : Nat) (hk : 0 < k) (hn : n < 16 ^ k) :
    padZeros k (toHexU n) = digitsK k n := by
  rw [toHexU_eq_aux k n hk hn]
  exact padZeros_toHexUAux k n hk hn

lemma parseHexAux_append : ∀ (xs : List Char) (acc : Nat) (ys : List Char),
    parseHexAux acc (xs ++ ys) = (parseHexAux acc xs).bind (fun a => parseHexAux a ys) := by
  intro xs
  induction xs with
  | nil => intro acc ys; simp [parseHexAux]
  | cons c cs ih =>
    intro acc ys
    simp only [List.cons_append, parseHexAux]
    cases hexVal c with
    | none => rfl
    | some d => simp [ih]

lemma parseHexAux_digitsK : ∀ k n acc, n < 16 ^ k →
    parseHexAux acc (digitsK k n) = some (acc * 16 ^ k + n) := by
  intro k
  induction k with
  | zero =>
    intro n acc hn
    have : n = 0 := by simpa using hn
    subst this
    simp [digitsK, parseHexAux]
  | succ k ih =>
    intro n acc hn
    have hdf : n / 16 < 16 ^ k := by
      rw [Nat.div_lt_iff_lt_mul (by norm_num)]
      calc n < 16 ^ (k + 1) := hn
      _ = 16 ^ k * 16 := by rw [pow_succ]
    simp only [digitsK, parseHexAux_append, ih (n / 16) acc hdf]
    simp only [parseHexAux, hexVal_hexDigitU (n % 16) (Nat.mod_lt n (by norm_num)),
      Option.some_bind]
    congr 1
    rw [pow_succ, ← mul_assoc]
    generalize acc * 16 ^ k = A
    omega

lemma parseHexNat_digitsK (k n : Nat) (hk : 0 < k) (hn : n < 16 ^ k) :
    parseHexNat (digitsK k n) = some n := by
  cases h : digitsK k n with
  | nil =>
    have := digitsK_length k n
    rw [h] at this
    simp at this
    omega
  | cons c cs =>
    have := parseHexAux_digitsK k n 0 hn
    rw [h] at this
    simpa [parseHexNat] using this

lemma digitsK_two_step (k n : Nat) :
    digitsK (k + 2) n = digitsK k (n / 256) ++ hexByte (n % 256) := by
  have h1 : n / 16 / 16 = n / 256 := by omega
  have h2 : n % 256 / 16 % 16 = n / 16 % 16 := by omega
  have h3 : n % 256 % 16 = n % 16 := by omega
  simp [digitsK, hexByte, h1, h2, h3]

lemma digitsK_twelve_flat (v : Nat) :
    digitsK 12 v = hexByte (byteAt v 5) ++ hexByte (byteAt v 4) ++ hexByte (byteAt v 3)
      ++ hexByte (byteAt v 2) ++ hexByte (byteAt v 1) ++ hexByte (byteAt v 0) := by
  have e1 : v / 256 / 256 = v / 256 ^ 2 := by rw [Nat.div_div_eq_div_mul]; norm_num
  have e2 : v / 256 ^ 2 / 256 = v / 256 ^ 3 := by rw [Nat.div_div_eq_div_mul]; norm_num
  have e3 : v / 256 ^ 3 / 256 = v / 256 ^ 4 := by rw [Nat.div_div_eq_div_mul]; norm_num
  have e4 : v / 256 ^ 4 / 256 = v / 256 ^ 5 := by rw [Nat.div_div_eq_div_mul]; norm_num
  rw [show (12 : Nat) = 10 + 2 by rfl, digitsK_two_step,
    show (10 : Nat) = 8 + 2 by rfl, digitsK_two_step,
    show (8 : Nat) = 6 + 2 by rfl, digitsK_two_step,
    show (6 : Nat) = 4 + 2 by rfl, digitsK_two_step,
    show (4 : Nat) = 2 + 2 by rfl, digitsK_two_step,
    show (2 : Nat) = 0 + 2 by rfl, digitsK_two_step]
  rw [e1, e2, e3, e4]
  simp [digitsK, byteAt, List.append_assoc, pow_one]

lemma joinPairs_digitsK (v : Nat) : joinPairs (digitsK 12 v) = goodMacL v := by
  rw [digitsK_twelve_flat]
  simp [hexByte, goodMacL, joinPairs]

lemma filter_goodMacL (v : Nat) :
    (goodMacL v).filter (fun c => c != ':') = digitsK 12 v := by
  have a5 := hexDigitU_ne_colon (byteAt v 5 / 16 % 16) (Nat.mod_lt _ (by norm_num))
  have b5 := hexDigitU_ne_colon (byteAt v 5 % 16) (Nat.mod_lt _ (by norm_num))
  have a4 := hexDigitU_ne_colon (byteAt v 4 / 16 % 16) (Nat.mod_lt _ (by norm_num))
  have b4 := hexDigitU_ne_colon (byteAt v 4 % 16) (Nat.mod_lt _ (by norm_num))
  have a3 := hexDigitU_ne_colon (byteAt v 3 / 16 % 16) (Nat.mod_lt _ (by norm_num))
  have b3 := hexDigitU_ne_colon (byteAt v 3 % 16) (Nat.mod_lt _ (by norm_num))
  have a2 := hexDigitU_ne_colon (byteAt v 2 / 16 % 16) (Nat.mod_lt _ (by norm_num))
  have b2 := hexDigitU_ne_colon (byteAt v 2 % 16) (Nat.mod_lt _ (by norm_num))
  have a1 := hexDigitU_ne_colon (byteAt v 1 / 16 % 16) (Nat.mod_lt _ (by norm_num))
  have b1 := hexDigitU_ne_colon (byteAt v 1 % 16) (Nat.mod_lt _ (by norm_num))
  have a0 := hexDigitU_ne_colon (byteAt v 0 / 16 % 16) (Nat.mod_lt _ (by norm_num))
  have b0 := hexDigitU_ne_colon (byteAt v 0 % 16) (Nat.mod_lt _ (by norm_num))
  rw [digitsK_twelve_flat]
  simp [goodMacL, hexByte, List.filter, a5, b5, a4, b4, a3, b3, a2, b2, a1, b1, a0, b0]

lemma pow_sixteen_twelve : (16 : Nat) ^ 12 = 2 ^ 48 := by norm_num

/-- The central characterisation of `increment_mac` on canonical input:
whenever the 48-bit value plus the offset stays inside `[0, 2^48)`, the
result is the canonical rendering of the sum. -/
lemma increment_mac_goodMac (v : Nat) (hv : v < 2 ^ 48) (o : Int)
    (h0 : 0 ≤ (v : Int) + o) (h1 : (v : Int) + o < 2 ^ 48) :
    increment_mac (goodMac v) o = some (goodMac ((v : Int) + o).toNat) := by
  have hfilter : (goodMac v).data.filter (fun c => c != ':') = digitsK 12 v :=
    filter_goodMacL v
  have hparse : parseHexNat (digitsK 12 v) = some v :=
    parseHexNat_digitsK 12 v (by norm_num) (by rw [pow_sixteen_twelve]; exact hv)
  have hm : ((v : Int) + o).toNat < 16 ^ 12 := by
    rw [pow_sixteen_twelve]
    omega
  simp only [increment_mac, hfilter, hparse]
  rw [pyFormat012X, if_pos h0, padZeros_toHexU 12 _ (by norm_num) hm, joinPairs_digitsK]
  rfl

lemma toHexUAux_mem : ∀ fuel n c, c ∈ toHexUAux fuel n → isHexU c = true := by
  intro fuel
  induction fuel with
  | zero => intro n c h; simp [toHexUAux] at h
  | succ fuel ih =>
    intro n c h
    by_cases hn : n < 16
    · simp [toHexUAux, hn] at h
      subst h
      exact hexDigitU_isHexU n hn
    · simp [toHexUAux, hn] at h
      rcases h with h | h
      · exact ih _ _ h
      · subst h
        exact hexDigitU_isHexU _ (Nat.mod_lt _ (by norm_num))

lemma padZeros_all_hexU (l : List Char) (hl : ∀ c ∈ l, isHexU c = true) :
    ∀ c ∈ padZeros 12 l, isHexU c = true := by
  intro c hc
  simp only [padZeros, List.mem_append] at hc
  rcases hc with hc | hc
  · have : c = '0' := List.eq_of_mem_replicate hc
    subst this
    decide
  · exact hl c hc

lemma padZeros_twelve_length (l : List Char) : 12 ≤ (padZeros 12 l).length := by
  simp [padZeros]
  omega

lemma joinPairs_canonical (s : List Char) (hlen : 12 ≤ s.length)
    (hhex : ∀ c ∈ s, isHexU c = true) : isCanonicalMac ⟨joinPairs s⟩ = true := by
  rcases s with _ | ⟨c0, s⟩; · simp at hlen
  rcases s with _ | ⟨c1, s⟩; · simp at hlen
  rcases s with _ | ⟨c2, s⟩; · simp at hlen
  rcases s with _ | ⟨c3, s⟩; · simp at hlen
  rcases s with _ | ⟨c4, s⟩; · simp at hlen
  rcases s with _ | ⟨c5, s⟩; · simp at hlen
  rcases s with _ | ⟨c6, s⟩; · simp at hlen
  rcases s with _ | ⟨c7, s⟩; · simp at hlen
  rcases s with _ | ⟨c8, s⟩; · simp at hlen
  rcases s with _ | ⟨c9, s⟩; · simp at hlen
  rcases s with _ | ⟨c10, s⟩; · simp at hlen
  rcases s with _ | ⟨c11, s⟩; · simp at hlen
  have h0 : isHexU c0 = true := hhex c0 (by simp)
  have h1 : isHexU c1 = true := hhex c1 (by simp)
  have h2 : isHexU c2 = true := hhex c2 (by simp)
  have h3 : isHexU c3 = true := hhex c3 (by simp)
  have h4 : isHexU c4 = true := hhex c4 (by simp)
  have h5 : isHexU c5 = true := hhex c5 (by simp)
  have h6 : isHexU c6 = true := hhex c6 (by simp)
  have h7 : isHexU c7 = true := hhex c7 (by simp)
  have h8 : isHexU c8 = true := hhex c8 (by simp)
  have h9 : isHexU c9 = true := hhex c9 (by simp)
  have h10 : isHexU c10 = true := hhex c10 (by simp)
  have h11 : isHexU c11 = true := hhex c11 (by simp)
  simp [joinPairs, isCanonicalMac, h0, h1, h2, h3, h4, h5, h6, h7, h8, h9, h10, h11]

/-- Whenever the 48-bit value plus the offset is non-negative — even when it
overflows 2^48 − 1 — `increment_mac` on canonical input succeeds and its
output is again in canonical 6-byte form. -/
lemma increment_mac_goodMac_canonical (v : Nat) (hv : v < 2 ^ 48) (o : Int)
    (h0 : 0 ≤ (v : Int) + o) :
    ∃ out, increment_mac (goodMac v) o = some out ∧ isCanonicalMac out = true := by
  have hfilter : (goodMac v).data.filter (fun c => c != ':') = digitsK 12 v :=
    filter_goodMacL v
  have hparse : parseHexNat (digitsK 12 v) = some v :=
    parseHexNat_digitsK 12 v (by norm_num) (by rw [pow_sixteen_twelve]; exact hv)
  refine ⟨⟨joinPairs (padZeros 12 (toHexU ((v : Int) + o).toNat))⟩, ?_, ?_⟩
  · simp only [increment_mac, hfilter, hparse]
    rw [pyFormat012X, if_pos h0]
  · exact joinPairs_canonical _ (padZeros_twelve_length _)
      (padZeros_all_hexU _ (fun c hc => toHexUAux_mem _ _ c hc))

/-! ### Lemmas about the capture loop and the persisted catalog. -/

/-- If no line of the session yields an address, the read loop returns the
timeout result: no record, unchanged state, nothing written. -/
lemma processLines_no_mac (st : MState) (port now : String) :
    ∀ lines : List String,
      (∀ l ∈ lines, parse_mac_from_boot_message (pyStripS l) = none) →
      processLines st port now lines = some (none, st, none) := by
  intro lines
  induction lines with
  | nil => intro _; rfl
  | cons l ls ih =>
    intro h
    have hl := h l (by simp)
    have hrest : ∀ x ∈ ls, parse_mac_from_boot_message (pyStripS x) = none :=
      fun x hx => h x (by simp [hx])
    by_cases he : (pyStripS l).isEmpty <;> simp [processLines, he, hl, ih hrest]

/-- Running a history from a state that agrees with the persisted file
assigns the contiguous identifiers starting at the current counter. -/
lemma runEvents_ids : ∀ (evs : List Event) (st : MState) (disk : DBFile),
    load_database disk = .ok st →
    ∃ w d, runEvents st disk evs
      = some (w, d, idsFrom st.device_counter (appendCount evs)) := by
  intro evs
  induction evs with
  | nil => intro st disk _; exact ⟨st, disk, rfl⟩
  | cons e evs ih =>
    intro st disk h
    cases e with
    | append w b p t =>
      have hload : load_database (save_database ⟨st.mac_database ++
          [⟨st.device_counter, w, b, t, p⟩], st.device_counter + 1⟩ t)
          = .ok ⟨st.mac_database ++ [⟨st.device_counter, w, b, t, p⟩],
            st.device_counter + 1⟩ := rfl
      obtain ⟨w', d', hrun⟩ := ih _ _ hload
      refine ⟨w', d', ?_⟩
      simp [runEvents, appendDevice, hrun, idsFrom, appendCount]
    | restart =>
      obtain ⟨w', d', hrun⟩ := ih st disk h
      refine ⟨w', d', ?_⟩
      simp [runEvents, h, hrun, appendCount]

/-! ### Claim theorems. -/

/-- C1, counterexample: at the 6-byte address `FF:FF:FF:FF:FF:FF` with
offset 2, `increment_mac` yields `10:00:00:00:00:00` — the top 12 hex
digits of the unreduced 13-digit sum — while reduction modulo 2^48, as the
claim states it, would yield `00:00:00:00:00:01`.  The claim is false of
the code. -/
theorem c1_counterexample :
    increment_mac "FF:FF:FF:FF:FF:FF" 2 = some "10:00:00:00:00:00" ∧
    deriveAddressSpecModel "FF:FF:FF:FF:FF:FF" 2 = some "00:00:00:00:00:01" ∧
    increment_mac "FF:FF:FF:FF:FF:FF" 2 ≠ deriveAddressSpecModel "FF:FF:FF:FF:FF:FF" 2 := by
  decide

/-- C1 (amended): for every 6-byte address and every integer offset such
that the 48-bit big-endian value of the address plus the offset lies in
`[0, 2^48)`, `increment_mac` interprets the address as a 48-bit big-endian
unsigned integer, adds the offset, and re-renders the sum as 6
colon-separated uppercase hex byte pairs.  Sums outside that range are not
reduced modulo 2^48 (the formatted hex is truncated to its first 12
digits, see `c1_counterexample`). -/
theorem c1_amended (v : Nat) (hv : v < 2 ^ 48) (o : Int)
    (h0 : 0 ≤ (v : Int) + o) (h1 : (v : Int) + o < 2 ^ 48) :
    increment_mac (goodMac v) o = some (goodMac ((v : Int) + o).toNat) :=
  increment_mac_goodMac v hv o h0 h1

/-- C1, witness: the amended theorem applied at the address
`00:00:00:00:00:01` with offset 2. -/
theorem c1_amended_witness : increment_mac "00:00:00:00:00:01" 2 = some "00:00:00:00:00:03" := by
  have h := c1_amended 1 (by norm_num) 2 (by norm_num) (by norm_num)
  rw [show goodMac 1 = "00:00:00:00:00:01" by decide] at h
  rw [show (((1 : Nat) : Int) + 2).toNat = 3 by decide] at h
  rw [show goodMac 3 = "00:00:00:00:00:03" by decide] at h
  exact h

/-- C2: evaluation of `parse_mac_from_boot_message` at the claim's two
example lines.  The first yields the normalised `AA:BB:CC:DD:EE:FF` as
claimed, but the second yields `MAC AA:BB:CC:DD:EE:FF`: the label is
only stripped in its `'MAC:'`/`'Mac:'`/`'mac:'` colon forms, not when
separated by whitespace, so the claimed output is wrong there.  Feeding
that un-stripped result to `increment_mac` fails (in the Python code,
`int(_, 16)` raises `ValueError`, which no handler catches). -/
theorem c2_label_not_stripped :
    parse_mac_from_boot_message "MAC: aa-bb-cc-dd-ee-ff" = some "AA:BB:CC:DD:EE:FF" ∧
    parse_mac_from_boot_message "Got mac aa:bb:cc:dd:ee:ff ready"
      = some "MAC AA:BB:CC:DD:EE:FF" ∧
    some "MAC AA:BB:CC:DD:EE:FF" ≠ some ("AA:BB:CC:DD:EE:FF" : String) ∧
    increment_mac "MAC AA:BB:CC:DD:EE:FF" 2 = none := by
  decide

/-- C3: starting from a fresh catalog (absent file, counter 1), any history
of successful captures interleaved with process restarts assigns exactly
the contiguous identifiers `1, 2, ..., k` in creation order: each append
increments the identifier by exactly 1 and restarts honour the persisted
`next_id`. -/
theorem c3_identifiers_contiguous (evs : List Event) :
    ∃ st disk, runEvents ⟨[], 1⟩ .absent evs
      = some (st, disk, idsFrom 1 (appendCount evs)) :=
  runEvents_ids evs ⟨[], 1⟩ .absent rfl

/-- C4: saving a catalog, loading it back and saving again reproduces the
same `devices` array and the same `next_id` as the first save; only the
`last_updated` field may differ. -/
theorem c4_save_load_save (C : MState) (t1 t2 : String) :
    ∃ C2, load_database (save_database C t1) = .ok C2 ∧
      sameDevicesAndNextId (save_database C2 t2) (save_database C t1) :=
  ⟨C, rfl, rfl, rfl⟩

/-- C5: when no line of the session yields an address (the timeout case),
`collect_mac_from_reset` returns the failure value `None`, the in-memory
state is unchanged, no record is appended, and nothing is persisted. -/
theorem c5_timeout_no_mutation (st : MState) (port now : String) (lines : List String)
    (h : ∀ l ∈ lines, parse_mac_from_boot_message (pyStripS l) = none) :
    collect_mac_from_reset st port now (some lines) = some (none, st, none) :=
  processLines_no_mac st port now lines h

/-- C5, witness: a session of two address-free boot lines. -/
theorem c5_timeout_witness :
    collect_mac_from_reset ⟨[], 1⟩ "COM3" "t0"
      (some ["ets Jun  8 2016 00:22:57", "rst:0x1 (POWERON_RESET)"])
      = some (none, ⟨[], 1⟩, none) :=
  c5_timeout_no_mutation ⟨[], 1⟩ "COM3" "t0" _ (by decide)

/-- C6, counterexample: at a concrete state, the open-failure outcome of
`collect_mac_from_reset` (the `serial.SerialException` handler, which
returns `None`) is the very same value as the timeout outcome — both are
`None` with the state unchanged and nothing written — so the caller cannot
distinguish the two failures, contradicting the claim. -/
theorem c6_counterexample :
    collect_mac_from_reset ⟨[], 1⟩ "COM3" "t0" none
        = collect_mac_from_reset ⟨[], 1⟩ "COM3" "t0" (some []) ∧
    collect_mac_from_reset ⟨[], 1⟩ "COM3" "t0" none = some (none, ⟨[], 1⟩, none) := by
  decide

/-- C6 (amended): a failure to open the serial endpoint returns exactly the
same outcome as a capture timeout — `None`, unchanged state, nothing
persisted — so the two failures are not distinguishable by the caller
(they differ only in logged text). -/
theorem c6_amended (st : MState) (port now : String) (lines : List String)
    (h : ∀ l ∈ lines, parse_mac_from_boot_message (pyStripS l) = none) :
    collect_mac_from_reset st port now none = some (none, st, none) ∧
    collect_mac_from_reset st port now (some lines)
      = collect_mac_from_reset st port now none :=
  ⟨rfl, (processLines_no_mac st port now lines h).trans rfl⟩

/-- C6, witness: the amended theorem at a concrete state and session. -/
theorem c6_amended_witness :
    collect_mac_from_reset ⟨[], 1⟩ "COM4" "t1" none = some (none, ⟨[], 1⟩, none) ∧
    collect_mac_from_reset ⟨[], 1⟩ "COM4" "t1" (some ["load:0x3fff0018,len:4"])
      = collect_mac_from_reset ⟨[], 1⟩ "COM4" "t1" none :=
  c6_amended ⟨[], 1⟩ "COM4" "t1" _ (by decide)

/-- C7, counterexample: for the valid address `00:00:00:00:00:01` and the
non-negative offset 1, deriving with 1 and then with `(-1) mod 2^48`
yields `10:00:00:00:00:00`, not the original address, because the second
addition overflows 2^48 − 1 and `increment_mac` truncates instead of
wrapping.  The claimed inverse law is false of the code. -/
theorem c7_counterexample :
    (-(1 : Int)) % 2 ^ 48 = 281474976710655 ∧
    increment_mac "00:00:00:00:00:01" 1 = some "00:00:00:00:00:02" ∧
    increment_mac "00:00:00:00:00:02" 281474976710655 = some "10:00:00:00:00:00" ∧
    ("10:00:00:00:00:00" : String) ≠ "00:00:00:00:00:01" := by
  decide

/-- C7 (amended): for every valid 6-byte address and non-negative offset
`o` such that the first addition does not overflow 2^48 − 1, deriving with
`o` and then with the plain negative offset `-o` (rather than with
`-o mod 2^48`, which always overflows the second addition) returns the
original address. -/
theorem c7_amended (v : Nat) (hv : v < 2 ^ 48) (o : Nat) (hsum : v + o < 2 ^ 48) :
    (increment_mac (goodMac v) (o : Int)).bind
      (fun m => increment_mac m (-(o : Int))) = some (goodMac v) := by
  have h1 : increment_mac (goodMac v) (o : Int)
      = some (goodMac (((v : Int) + o).toNat)) :=
    increment_mac_goodMac v hv o (by positivity) (by push_cast; omega)
  have htn : ((v : Int) + o).toNat = v + o := by omega
  rw [h1, Option.some_bind, htn]
  have h2 := increment_mac_goodMac (v + o) hsum (-(o : Int))
    (by push_cast; omega) (by push_cast; omega)
  rw [h2]
  congr 1
  have : (((v + o : Nat) : Int) + -(o : Int)).toNat = v := by push_cast; omega
  rw [this]

/-- C7, witness: the amended theorem at address `00:00:00:00:00:AB` and
offset 2. -/
theorem c7_amended_witness :
    (increment_mac "00:00:00:00:00:AB" 2).bind (fun m => increment_mac m (-2))
      = some "00:00:00:00:00:AB" := by
  have h := c7_amended 171 (by norm_num) 2 (by norm_num)
  rw [show goodMac 171 = "00:00:00:00:00:AB" by decide] at h
  rw [show ((2 : Nat) : Int) = (2 : Int) by decide] at h
  exact h

/-- C8, counterexample: for the valid address `00:00:00:00:00:00` and the
offset −1 the sum is negative, Python renders it with a sign
(`format(-1, '012X') = '-00000000001'`), and the output
`-0:00:00:00:00:01` is not in the canonical 6-byte hex form, so the claim
quantified over every offset is false of the code. -/
theorem c8_counterexample :
    isCanonicalMac "00:00:00:00:00:00" = true ∧
    increment_mac "00:00:00:00:00:00" (-1) = some "-0:00:00:00:00:01" ∧
    isCanonicalMac "-0:00:00:00:00:01" = false := by
  decide

/-- C8 (amended): for every valid 6-byte address and every offset such that
the 48-bit value plus the offset is non-negative — including every case
where the addition overflows 2^48 − 1 — the output of `increment_mac` is
in the canonical 6-byte hex form: six colon-separated groups of exactly
two uppercase hex digits. -/
theorem c8_amended (v : Nat) (hv : v < 2 ^ 48) (o : Int) (h0 : 0 ≤ (v : Int) + o) :
    ∃ out, increment_mac (goodMac v) o = some out ∧ isCanonicalMac out = true :=
  increment_mac_goodMac_canonical v hv o h0

/-- C8, witness: the amended theorem at the all-ones address with offset 2,
the overflowing case. -/
theorem c8_amended_witness :
    ∃ out, increment_mac (goodMac 281474976710655) 2 = some out
      ∧ isCanonicalMac out = true :=
  c8_amended 281474976710655 (by norm_num) 2 (by norm_num)

/-- C9: a persisted catalog file that exists but is malformed makes
`load_database` fail with the (uncaught, hence fatal) decode error instead
of silently resetting the state, while an absent file yields the empty
catalog with next identifier 1. -/
theorem c9_malformed_fatal :
    load_database .malformed = .error .decodeFailure ∧
    load_database .absent = .ok ⟨[], 1⟩ :=
  ⟨rfl, rfl⟩

/-- C10: a persisted file that parses as a JSON object lacking the
`next_id` key (respectively the `devices` key) loads without error, with
the counter silently defaulting to 1 (respectively the device list to
`[]`), because `data.get` supplies defaults instead of treating the file
as corrupt. -/
theorem c10_missing_keys_defaults (dv : Option (List DeviceInfo)) (ni : Option Nat)
    (lu lu2 : Option String) :
    load_database (.object dv none lu) = .ok ⟨dv.getD [], 1⟩ ∧
    load_database (.object none ni lu2) = .ok ⟨[], ni.getD 1⟩ :=
  ⟨rfl, rfl⟩

end EspMac
